import Mathlib

/-!
Verification of the news-driven commodity trading bot notebook against its
specification.  The notebook's code cells are embedded shallowly: the
external services (the transformers sentiment pipeline, the news fetcher,
the Alpaca broker) are modelled as explicit parameters, so every embedded
function is a pure function of its inputs and of those environments.
Components that the specification describes but that have no code in the
repository (Event Stream Merger, Position ledger, Risk & Sizing Filter)
are modelled from the specification text and marked as such.
-/

namespace TradingBot

/-- Result record of one classification produced by the sentiment pipeline,
mirroring the `{label, score}` dictionaries returned by the transformers
`sentiment-analysis` pipeline used in `SentimentAnalyzer`. -/
structure SentimentResult where
  label : String
  score : ℚ
deriving DecidableEq

/-- The external transformers pipeline (`ProsusAI/finbert`), modelled as a
function from input text to a list of classification records. -/
abbrev Pipeline : Type := String → List SentimentResult

/-- Embeds `SentimentAnalyzer.analyze_sentiment`: the method is a direct
wrapper that returns the pipeline's output for the given text verbatim. -/
def analyze_sentiment (pipe : Pipeline) (text : String) : List SentimentResult :=
  pipe text

/-- A news article record as delivered by `NewsFetcher.fetch_news`; only the
title is read by the strategy code. -/
structure Article where
  title : String
deriving DecidableEq

/-- Embeds the signed sentiment score derived in `SentimentStrategy.next`:
`sentiment[0]['score'] if sentiment[0]['label'] == 'positive' else
-sentiment[0]['score']`.  Returns `none` when the pipeline produces no
classification (where the source would raise `IndexError`). -/
def sentiment_score_of (pipe : Pipeline) (text : String) : Option ℚ :=
  match analyze_sentiment pipe text with
  | [] => none
  | r :: _ => some (if r.label = "positive" then r.score else -r.score)

/-- Trading actions issued by the strategy (`self.buy()` / `self.sell()`). -/
inductive TradeAction
  | buy
  | sell
deriving DecidableEq

/-- A strategy position state per symbol, per the specification's
`{FLAT, LONG, SHORT}` state machine. -/
inductive PosState
  | flat
  | long
  | short
deriving DecidableEq

/-- One OHLCV market-data record (spec data model `MarketBar`). -/
structure MarketBar where
  symbol : String
  ts : Nat
  open_ : ℚ
  high : ℚ
  low : ℚ
  close : ℚ
  volume : Nat
deriving DecidableEq

/-- Embeds `SentimentStrategy.next`.  `fetched` is the article list returned
by `self.news_fetcher.fetch_news(query='Brent Oil')` at evaluation time —
an external input read inside `next`, not part of the bar feed.  `bars` and
`pos` model the backtrader data feed and current position that are in scope
inside `next`; the source body reads neither, and accordingly neither
parameter occurs in the body here. -/
def sentimentStrategyNext (fetched : List Article) (pipe : Pipeline)
    (bars : List MarketBar) (pos : PosState) : Option TradeAction :=
  match fetched with
  | [] => none
  | a :: _ =>
    match sentiment_score_of pipe a.title with
    | none => none
    | some sentiment_score =>
      if sentiment_score > 1/2 then some .buy
      else if sentiment_score < -(1/2) then some .sell
      else none

/-- Arguments of one `TradeExecutor.place_order` call; `otype` stands for the
Python parameter `type` (a reserved word here). -/
structure OrderArgs where
  symbol : String
  qty : Nat
  side : String
  otype : String
  time_in_force : String
deriving DecidableEq

/-- One live broker-side order.  The broker assigns a fresh id on every
accepted submission, since `place_order` passes no client_order_id. -/
structure BrokerOrder where
  id : Nat
  args : OrderArgs
deriving DecidableEq

/-- Broker-side state: the id counter and the list of live orders. -/
structure BrokerState where
  nextId : Nat
  live : List BrokerOrder
deriving DecidableEq

/-- Outcome of one `api.submit_order` call: the broker either accepts, or the
call raises an exception (network error, timeout, rejection — the source
catches bare `Exception`, so all are one case carrying a message). -/
inductive SubmitOutcome
  | accepted
  | raises (msg : String)
deriving DecidableEq

/-- The broker API primitives named by the spec; used to record which calls
`place_order` performs. -/
inductive BrokerCall
  | submit (args : OrderArgs)
  | query_status (client_order_id : String)
  | cancel (client_order_id : String)
deriving DecidableEq

/-- Embeds `TradeExecutor.place_order`: one `submit_order` call inside
`try/except`; on success the broker's order object is returned, on any
exception the handler prints and returns `None`.  The result triple is
(returned value, broker state after the call, broker calls performed). -/
def place_order (outcome : SubmitOutcome) (st : BrokerState) (args : OrderArgs) :
    Option BrokerOrder × BrokerState × List BrokerCall :=
  match outcome with
  | .accepted =>
    (some ⟨st.nextId, args⟩, ⟨st.nextId + 1, ⟨st.nextId, args⟩ :: st.live⟩, [.submit args])
  | .raises _ => (none, st, [.submit args])

/-- Order side, per the spec's `OrderRequest.side`. -/
inductive Side
  | buy
  | sell
deriving DecidableEq

/-- Fill granularity: a PARTIALLY_FILLED or a FILLED order-state transition,
the only transitions the spec lets update `Position`. -/
inductive FillKind
  | partFill
  | fullFill
deriving DecidableEq

/-- Modelled from the spec: a broker fill notification (symbol, side, filled
quantity, and whether it came from a PARTIALLY_FILLED or FILLED transition).
No fill-handling code exists in the repository. -/
structure FillEvent where
  symbol : String
  side : Side
  qty : Nat
  kind : FillKind
deriving DecidableEq

/-- Signed fill quantity: buys add, sells subtract. -/
def signedQty (f : FillEvent) : Int :=
  match f.side with
  | .buy => (f.qty : Int)
  | .sell => -(f.qty : Int)

/-- Signed sum of the fill quantities recorded for a symbol in a ledger. -/
def positionsOf (l : List FillEvent) (s : String) : Int :=
  ((l.filter (fun f => f.symbol = s)).map signedQty).sum

/-- Modelled from the spec: the order ledger (append-only fill log) together
with the per-symbol `Position.net_quantity` view.  `average_entry_price` is
omitted: the claim under study concerns `net_quantity` only. -/
structure LedgerState where
  ledger : List FillEvent
  net_quantity : String → Int

/-- Modelled from the spec: apply one fill atomically — the ledger append and
the position update are one step, per the fill-reconciliation rule. -/
def applyFill (st : LedgerState) (f : FillEvent) : LedgerState :=
  { ledger := st.ledger ++ [f],
    net_quantity := fun s =>
      if f.symbol = s then st.net_quantity s + signedQty f else st.net_quantity s }

/-- Process a sequence of fills in order. -/
def processFills (st : LedgerState) (fs : List FillEvent) : LedgerState :=
  fs.foldl applyFill st

/-- Modelled from the spec: crash recovery recomputes every position from the
persisted ledger before resuming. -/
def recover (st : LedgerState) : LedgerState :=
  { ledger := st.ledger, net_quantity := fun s => positionsOf st.ledger s }

/-- Modelled from the spec: a torn crash between a fill and the position
update — the fill reached the persisted ledger but the in-memory position
update was lost. -/
def tornAppend (st : LedgerState) : Option FillEvent → LedgerState
  | none => st
  | some f => { ledger := st.ledger ++ [f], net_quantity := st.net_quantity }

/-- The empty ledger with all positions flat. -/
def initLedger : LedgerState :=
  { ledger := [], net_quantity := fun _ => 0 }

/-- Modelled from the spec: run fill segments separated by crash/restart
cycles.  Each segment is processed, then a crash may tear one final fill
(ledger written, position update lost), then recovery rebuilds positions
from the ledger. -/
def runWithRestarts (segs : List (List FillEvent × Option FillEvent)) : LedgerState :=
  segs.foldl (fun st seg => recover (tornAppend (processFills st seg.1) seg.2)) initLedger

/-- A timestamped article record (spec data model `NewsEvent`). -/
structure NewsEvent where
  source : String
  ts : Nat
  raw_text : String
  sentiment_score : Option ℚ
deriving DecidableEq

/-- An event entering the Event Stream Merger: a market bar or a news event. -/
inductive MergedEvent
  | bar (b : MarketBar)
  | news (n : NewsEvent)
deriving DecidableEq

/-- Timestamp of a merged event. -/
def ets : MergedEvent → Nat
  | .bar b => b.ts
  | .news n => n.ts

/-- Tie-break rank: market bars before news events at the same timestamp. -/
def erank : MergedEvent → Nat
  | .bar _ => 0
  | .news _ => 1

/-- Merge key: lexicographic (timestamp, rank) packed into one natural. -/
def ekey (e : MergedEvent) : Nat :=
  2 * ets e + erank e

/-- Whether a merged event is a market bar. -/
def isBar : MergedEvent → Bool
  | .bar _ => true
  | .news _ => false

/-- Whether a merged event is a news event. -/
def isNews : MergedEvent → Bool
  | .bar _ => false
  | .news _ => true

/-- Modelled from the spec: the Event Stream Merger.  It takes the N producer
queues and produces one sequence ordered by (timestamp, bar-before-news),
realised as a sort of the combined events by the merge key.  No merger code
exists in the repository. -/
def mergeStreams (qs : List (List MergedEvent)) : List MergedEvent :=
  List.insertionSort (fun a b => ekey a ≤ ekey b) qs.flatten

instance : IsTotal MergedEvent (fun a b => ekey a ≤ ekey b) :=
  ⟨fun a b => Nat.le_total (ekey a) (ekey b)⟩

instance : IsTrans MergedEvent (fun a b => ekey a ≤ ekey b) :=
  ⟨fun _ _ _ h1 h2 => Nat.le_trans h1 h2⟩

/-- Rate-limiter configuration of the Risk & Sizing Filter: window length,
`max_orders_per_window`, and the signal threshold τ. -/
structure RateConfig where
  windowLen : Nat
  maxPerWindow : Nat
  tau : ℚ

/-- A timestamped sentiment score entering the Risk & Sizing Filter. -/
structure ScoreEvent where
  ts : Nat
  score : ℚ

/-- Index of the rate-limit window containing time `t`. -/
def windowId (cfg : RateConfig) (t : Nat) : Nat :=
  t / cfg.windowLen

/-- Modelled from the spec: the Risk & Sizing Filter's rate limiter.  A score
whose magnitude exceeds τ forms an intent; the token bucket holds
`maxPerWindow` tokens, refilled in full at each window boundary, and an
intent is emitted as an order only if a token remains — otherwise it is
suppressed (RATE_LIMITED).  `wid` is the window currently being filled and
`cnt` the tokens consumed in it.  No filter code exists in the repository. -/
def riskFilter (cfg : RateConfig) : Nat → Nat → List ScoreEvent → List ScoreEvent
  | _, _, [] => []
  | wid, cnt, e :: es =>
    if e.score > cfg.tau ∨ e.score < -cfg.tau then
      let w := windowId cfg e.ts
      let c := if w = wid then cnt else 0
      if c < cfg.maxPerWindow then e :: riskFilter cfg w (c + 1) es
      else riskFilter cfg w c es
    else riskFilter cfg wid cnt es

/-- Number of emitted orders whose timestamp falls in window `w`. -/
def countInWindow (cfg : RateConfig) (w : Nat) (l : List ScoreEvent) : Nat :=
  (l.filter (fun e => windowId cfg e.ts = w)).length

/-- A sample `place_order` argument tuple used by concrete executions. -/
def demoArgs : OrderArgs :=
  { symbol := "BZ=F", qty := 1, side := "buy", otype := "market", time_in_force := "gtc" }

/-! ### Ledger lemmas -/

/-- The per-symbol positions view agrees with the signed fill sums of the
ledger. -/
def LedgerInv (st : LedgerState) : Prop :=
  ∀ s, st.net_quantity s = positionsOf st.ledger s

theorem positionsOf_append (l : List FillEvent) (f : FillEvent) (s : String) :
    positionsOf (l ++ [f]) s =
      positionsOf l s + (if f.symbol = s then signedQty f else 0) := by
  by_cases h : f.symbol = s
  · simp [positionsOf, List.filter_append, h]
  · simp [positionsOf, List.filter_append, h]

theorem ledgerInv_applyFill {st : LedgerState} (h : LedgerInv st) (f : FillEvent) :
    LedgerInv (applyFill st f) := by
  intro s
  by_cases hs : f.symbol = s
  · simp [applyFill, positionsOf_append, hs, h s]
  · simp [applyFill, positionsOf_append, hs, h s]

theorem ledgerInv_processFills {st : LedgerState} (h : LedgerInv st) (fs : List FillEvent) :
    LedgerInv (processFills st fs) := by
  induction fs generalizing st with
  | nil => exact h
  | cons f fs ih => exact ih (ledgerInv_applyFill h f)

theorem ledgerInv_recover (st : LedgerState) : LedgerInv (recover st) :=
  fun _ => rfl

theorem ledgerInv_initLedger : LedgerInv initLedger := by
  intro s
  simp [initLedger, positionsOf]

theorem ledgerInv_foldRestarts (segs : List (List FillEvent × Option FillEvent))
    (st : LedgerState) (h : LedgerInv st) :
    LedgerInv (segs.foldl
      (fun st seg => recover (tornAppend (processFills st seg.1) seg.2)) st) := by
  induction segs generalizing st with
  | nil => exact h
  | cons seg segs ih => exact ih _ (ledgerInv_recover _)

theorem processFills_ledger (st : LedgerState) (fs : List FillEvent) :
    (processFills st fs).ledger = st.ledger ++ fs := by
  induction fs generalizing st with
  | nil => simp [processFills]
  | cons f fs ih =>
    have : processFills st (f :: fs) = processFills (applyFill st f) fs := rfl
    rw [this, ih]
    simp [applyFill]

theorem tornAppend_ledger (st : LedgerState) (o : Option FillEvent) :
    (tornAppend st o).ledger = st.ledger ++ o.toList := by
  cases o <;> simp [tornAppend]

theorem foldRestarts_ledger (segs : List (List FillEvent × Option FillEvent))
    (st : LedgerState) :
    (segs.foldl (fun st seg => recover (tornAppend (processFills st seg.1) seg.2)) st).ledger =
      st.ledger ++ (segs.map (fun seg => seg.1 ++ seg.2.toList)).flatten := by
  induction segs generalizing st with
  | nil => simp
  | cons seg segs ih =>
    rw [List.foldl_cons, ih]
    simp [recover, tornAppend_ledger, processFills_ledger]

/-- Claim C4: after every sequence of fills — split into segments by
arbitrary crash/restart cycles, each crash possibly tearing one fill between
the ledger write and the position update, followed by more fills — the
`net_quantity` of every symbol equals the signed sum of the fill quantities
recorded in the ledger, and the ledger holds exactly the fills delivered. -/
theorem net_quantity_eq_signed_fill_sum
    (segs : List (List FillEvent × Option FillEvent)) (tail : List FillEvent) (s : String) :
    (processFills (runWithRestarts segs) tail).net_quantity s =
      positionsOf (processFills (runWithRestarts segs) tail).ledger s ∧
    (processFills (runWithRestarts segs) tail).ledger =
      (segs.map (fun seg => seg.1 ++ seg.2.toList)).flatten ++ tail := by
  constructor
  · exact ledgerInv_processFills
      (ledgerInv_foldRestarts segs initLedger ledgerInv_initLedger) tail s
  · rw [processFills_ledger, runWithRestarts, foldRestarts_ledger]
    simp [initLedger]

/-! ### Order submission -/

/-- Claim C9: `place_order` is a total function of the broker outcome — on an
accepted submission it returns exactly the broker's order object, on any
exception it returns `None` with the broker state it was given, and two
failures with different exception messages (transient or permanent) are
indistinguishable to the caller. -/
theorem place_order_never_propagates :
    (∀ (st : BrokerState) (args : OrderArgs),
        place_order .accepted st args =
          (some ⟨st.nextId, args⟩,
           ⟨st.nextId + 1, ⟨st.nextId, args⟩ :: st.live⟩, [.submit args])) ∧
    (∀ (msg : String) (st : BrokerState) (args : OrderArgs),
        (place_order (.raises msg) st args).1 = none) ∧
    (∀ (m1 m2 : String) (st : BrokerState) (args : OrderArgs),
        place_order (.raises m1) st args = place_order (.raises m2) st args) :=
  ⟨fun _ _ => rfl, fun _ _ _ => rfl, fun _ _ _ _ => rfl⟩

/-- Claim C2 (counterexample to idempotence): `place_order` carries no
client_order_id at all, so submitting the identical order arguments twice
leaves two distinct live orders at the broker. -/
theorem place_order_duplicates_on_resubmit :
    (place_order .accepted
        (place_order .accepted ⟨0, []⟩ demoArgs).2.1 demoArgs).2.1 =
      ⟨2, [⟨1, demoArgs⟩, ⟨0, demoArgs⟩]⟩ := rfl

/-- Claim C3 (counterexample to the ERROR/reconciliation rule): when the
submission raises a timeout, `place_order` returns `None`, records no order
state at all, and its only broker call is the one submit — no
`query_status` reconciliation ever happens. -/
theorem place_order_timeout_no_reconciliation :
    place_order (.raises "APIError: request timed out") ⟨0, []⟩ demoArgs =
      (none, ⟨0, []⟩, [.submit demoArgs]) := rfl

/-! ### Strategy claims -/

/-- Claim C1 (counterexample to determinism): `SentimentStrategy.next` reads
the news fetcher at evaluation time, so with the identical bar feed, position
and pipeline configuration, two runs that see different fetch results emit
different actions — the output is not a function of the event sequence and
configuration alone. -/
theorem strategy_output_depends_on_news_fetch :
    sentimentStrategyNext [⟨"positive"⟩] (fun t => [⟨t, 9/10⟩]) [] .flat ≠
      sentimentStrategyNext [⟨"negative"⟩] (fun t => [⟨t, 9/10⟩]) [] .flat := by
  simp [sentimentStrategyNext, sentiment_score_of, analyze_sentiment]
  norm_num
  decide

/-- Claim C5 (counterexample to dual confirmation): with falling bars (price
regime against a long) and the position already LONG, a single article the
pipeline labels positive at confidence 0.9 still makes `next` issue a buy —
the sentiment score alone triggers, with no regime check and no prior-state
check. -/
theorem redundant_buy_without_confirmation :
    sentimentStrategyNext [⟨"oil rallies"⟩] (fun _ => [⟨"positive", 9/10⟩])
        [⟨"BZ=F", 0, 10, 10, 9, 9, 100⟩, ⟨"BZ=F", 1, 9, 9, 8, 8, 100⟩] .long =
      some .buy := by
  norm_num [sentimentStrategyNext, sentiment_score_of, analyze_sentiment]

/-- Claim C6: the derived sentiment score is pure — it depends only on the
pipeline's classification of the text — and whenever the pipeline's
confidences lie in `[0, 1]`, the derived signed score lies in `[-1, 1]`. -/
theorem sentiment_score_pure_and_bounded :
    (∀ (p1 p2 : Pipeline) (t1 t2 : String), p1 t1 = p2 t2 →
        sentiment_score_of p1 t1 = sentiment_score_of p2 t2) ∧
    (∀ (p : Pipeline) (t : String) (s : ℚ),
        (∀ r ∈ analyze_sentiment p t, 0 ≤ r.score ∧ r.score ≤ 1) →
        sentiment_score_of p t = some s → -1 ≤ s ∧ s ≤ 1) := by
  constructor
  · intro p1 p2 t1 t2 h
    simp [sentiment_score_of, analyze_sentiment, h]
  · intro p t s hb hs
    rw [sentiment_score_of] at hs
    rcases hpt : analyze_sentiment p t with _ | ⟨r, rest⟩
    · rw [hpt] at hs
      exact absurd hs (by simp)
    · rw [hpt] at hs
      obtain ⟨h0, h1⟩ := hb r (by rw [hpt]; exact List.mem_cons_self r rest)
      have : (if r.label = "positive" then r.score else -r.score) = s := by
        exact Option.some.inj hs
      split at this <;> constructor <;> linarith

/-- Witness for claim C6 at a concrete pipeline with one classification of
confidence 1. -/
theorem sentiment_score_pure_and_bounded_witness :
    sentiment_score_of (fun _ => [⟨"positive", 1⟩]) "a" =
      sentiment_score_of (fun _ => [⟨"positive", 1⟩]) "b" ∧
    (-1 ≤ (1 : ℚ) ∧ (1 : ℚ) ≤ 1) :=
  ⟨sentiment_score_pure_and_bounded.1 _ _ "a" "b" rfl,
   sentiment_score_pure_and_bounded.2 (fun _ => [⟨"positive", 1⟩]) "a" 1
     (by intro r hr; simp [analyze_sentiment] at hr; subst hr; norm_num)
     (by norm_num [sentiment_score_of, analyze_sentiment])⟩

/-- Claim C10: the derived score in `next` is `+score` exactly when the
pipeline label is `positive` and `-score` for every other label, and an
article classified `neutral` with confidence above 0.5 makes the strategy
sell. -/
theorem neutral_label_negates_score_and_sells :
    (∀ (p : Pipeline) (t : String) (r : SentimentResult) (rs : List SentimentResult),
        p t = r :: rs →
        sentiment_score_of p t =
          some (if r.label = "positive" then r.score else -r.score)) ∧
    (∀ (a : Article) (arts : List Article) (p : Pipeline) (bars : List MarketBar)
        (pos : PosState) (r : SentimentResult) (rs : List SentimentResult),
        p a.title = r :: rs → r.label = "neutral" → r.score > 1/2 →
        sentimentStrategyNext (a :: arts) p bars pos = some .sell) := by
  constructor
  · intro p t r rs h
    simp [sentiment_score_of, analyze_sentiment, h]
  · intro a arts p bars pos r rs hp hl hs
    have hlt : -r.score < -(1/2 : ℚ) := by linarith
    have hnb : ¬((1 : ℚ)/2 < -r.score) := not_lt.mpr (by linarith)
    simp only [sentimentStrategyNext, sentiment_score_of, analyze_sentiment, hp, hl]
    rw [if_neg (show ¬(("neutral" : String) = "positive") from by simp)]
    rw [if_neg hnb, if_pos hlt]

/-- Witness for claim C10 at a concrete neutral classification of
confidence 0.9. -/
theorem neutral_label_negates_score_and_sells_witness :
    sentiment_score_of (fun _ => [⟨"neutral", 9/10⟩]) "t" =
      some (if ("neutral" : String) = "positive" then (9 : ℚ)/10 else -(9/10)) ∧
    sentimentStrategyNext [⟨"t"⟩] (fun _ => [⟨"neutral", 9/10⟩]) [] .flat = some .sell :=
  ⟨neutral_label_negates_score_and_sells.1 (fun _ => [⟨"neutral", 9/10⟩]) "t"
      ⟨"neutral", 9/10⟩ [] rfl,
   neutral_label_negates_score_and_sells.2 ⟨"t"⟩ [] (fun _ => [⟨"neutral", 9/10⟩]) [] .flat
      ⟨"neutral", 9/10⟩ [] rfl rfl (by norm_num)⟩

/-! ### Event Stream Merger -/

/-- Claim C7: for every collection of producer queues with non-decreasing
timestamps (hence for every interleaving of the producers' delivery), the
merged output has non-decreasing timestamps, and a news event never precedes
a market bar carrying the identical timestamp. -/
theorem merger_sorted_and_bar_before_news (qs : List (List MergedEvent))
    (hmono : ∀ q ∈ qs, List.Chain' (fun a b => ets a ≤ ets b) q) :
    ∀ i j : Fin (mergeStreams qs).length, i < j →
      ets ((mergeStreams qs).get i) ≤ ets ((mergeStreams qs).get j) ∧
      ¬(isNews ((mergeStreams qs).get i) = true ∧ isBar ((mergeStreams qs).get j) = true ∧
        ets ((mergeStreams qs).get i) = ets ((mergeStreams qs).get j)) := by
  intro i j hij
  have hs : List.Sorted (fun a b => ekey a ≤ ekey b) (mergeStreams qs) :=
    List.sorted_insertionSort _ _
  have hk := List.pairwise_iff_get.mp hs i j hij
  revert hk
  rcases (mergeStreams qs).get i with b | n <;> rcases (mergeStreams qs).get j with b' | n' <;>
    intro hk <;> simp [ekey, ets, erank, isBar, isNews] at hk ⊢ <;> omega

/-- A pair of producer queues used to instantiate claim C7: one bar producer
and one news producer sharing timestamp 3. -/
def demoQueues : List (List MergedEvent) :=
  [[.bar ⟨"BZ=F", 1, 0, 0, 0, 0, 0⟩, .bar ⟨"BZ=F", 3, 0, 0, 0, 0, 0⟩],
   [.news ⟨"reuters", 2, "a", none⟩, .news ⟨"reuters", 3, "b", none⟩]]

/-- Witness for claim C7 on `demoQueues`. -/
theorem merger_sorted_and_bar_before_news_witness :
    (∀ q ∈ demoQueues, List.Chain' (fun a b => ets a ≤ ets b) q) ∧
    (∀ i j : Fin (mergeStreams demoQueues).length, i < j →
      ets ((mergeStreams demoQueues).get i) ≤ ets ((mergeStreams demoQueues).get j) ∧
      ¬(isNews ((mergeStreams demoQueues).get i) = true ∧
        isBar ((mergeStreams demoQueues).get j) = true ∧
        ets ((mergeStreams demoQueues).get i) = ets ((mergeStreams demoQueues).get j))) :=
  ⟨by simp [demoQueues, ets],
   merger_sorted_and_bar_before_news demoQueues (by simp [demoQueues, ets])⟩

/-! ### Risk & Sizing Filter -/

theorem countInWindow_cons (cfg : RateConfig) (w : Nat) (e : ScoreEvent)
    (l : List ScoreEvent) :
    countInWindow cfg w (e :: l) =
      (if windowId cfg e.ts = w then 1 else 0) + countInWindow cfg w l := by
  by_cases h : windowId cfg e.ts = w <;> simp [countInWindow, List.filter_cons, h] <;> omega

theorem riskFilter_window_bound (cfg : RateConfig) (evs : List ScoreEvent) :
    ∀ (wid cnt w : Nat), cnt ≤ cfg.maxPerWindow →
      (∀ e ∈ evs, wid ≤ windowId cfg e.ts) →
      List.Pairwise (fun a b => a.ts ≤ b.ts) evs →
      countInWindow cfg w (riskFilter cfg wid cnt evs) ≤
        (if w = wid then cfg.maxPerWindow - cnt
         else if wid < w then cfg.maxPerWindow else 0) := by
  induction evs with
  | nil =>
    intro wid cnt w h1 h2 h3
    have : countInWindow cfg w (riskFilter cfg wid cnt []) = 0 := by
      simp [riskFilter, countInWindow]
    rw [this]
    exact Nat.zero_le _
  | cons e es ih =>
    intro wid cnt w h1 h2 h3
    have hwe : wid ≤ windowId cfg e.ts := h2 e (List.mem_cons_self e es)
    have h2' : ∀ e' ∈ es, windowId cfg e.ts ≤ windowId cfg e'.ts := fun e' he' =>
      Nat.div_le_div_right (List.rel_of_pairwise_cons h3 he')
    have h3' : List.Pairwise (fun a b => a.ts ≤ b.ts) es := h3.of_cons
    by_cases hint : e.score > cfg.tau ∨ e.score < -cfg.tau
    · by_cases hcap : (if windowId cfg e.ts = wid then cnt else 0) < cfg.maxPerWindow
      · have hstep : riskFilter cfg wid cnt (e :: es) =
            e :: riskFilter cfg (windowId cfg e.ts)
              ((if windowId cfg e.ts = wid then cnt else 0) + 1) es := by
          simp [riskFilter, hint, hcap]
        rw [hstep, countInWindow_cons]
        have hrec := ih (windowId cfg e.ts)
          ((if windowId cfg e.ts = wid then cnt else 0) + 1) w hcap h2' h3'
        split_ifs at hrec hcap ⊢ <;> omega
      · have hstep : riskFilter cfg wid cnt (e :: es) =
            riskFilter cfg (windowId cfg e.ts)
              (if windowId cfg e.ts = wid then cnt else 0) es := by
          simp [riskFilter, hint, hcap]
        rw [hstep]
        have hcle : (if windowId cfg e.ts = wid then cnt else 0) ≤ cfg.maxPerWindow := by
          split_ifs
          · exact h1
          · exact Nat.zero_le _
        have hrec := ih (windowId cfg e.ts)
          (if windowId cfg e.ts = wid then cnt else 0) w hcle h2' h3'
        split_ifs at hrec hcap ⊢ <;> omega
    · have hstep : riskFilter cfg wid cnt (e :: es) = riskFilter cfg wid cnt es := by
        simp [riskFilter, hint]
      rw [hstep]
      exact ih wid cnt w h1 (fun e' he' => h2 e' (List.mem_cons_of_mem e he')) h3'

/-- Claim C8: for every configuration and every timestamp-ordered sequence of
sentiment scores — however fast they oscillate above and below the signal
threshold — the number of orders the Risk & Sizing Filter emits whose
timestamps fall in any one rate-limit window never exceeds
`maxPerWindow`. -/
theorem rate_filter_bounds_orders_per_window (cfg : RateConfig) (evs : List ScoreEvent)
    (w : Nat) (hts : List.Pairwise (fun a b => a.ts ≤ b.ts) evs) :
    countInWindow cfg w (riskFilter cfg 0 0 evs) ≤ cfg.maxPerWindow := by
  have h := riskFilter_window_bound cfg evs 0 0 w (Nat.zero_le _) (fun _ _ => Nat.zero_le _) hts
  split_ifs at h <;> omega

/-- A score sequence oscillating above and below the threshold 0 on every
tick, five times inside the ten-tick window starting at 0. -/
def demoScores : List ScoreEvent :=
  [⟨0, 1⟩, ⟨1, -1⟩, ⟨2, 1⟩, ⟨3, -1⟩, ⟨4, 1⟩]

/-- Witness for claim C8: window length 10, at most 2 orders per window,
threshold 0, five oscillating scores in window 0. -/
theorem rate_filter_bounds_orders_per_window_witness :
    List.Pairwise (fun a b => a.ts ≤ b.ts) demoScores ∧
    countInWindow ⟨10, 2, 0⟩ 0 (riskFilter ⟨10, 2, 0⟩ 0 0 demoScores) ≤ 2 :=
  ⟨by simp [demoScores], rate_filter_bounds_orders_per_window ⟨10, 2, 0⟩ demoScores 0
    (by simp [demoScores])⟩

end TradingBot
